import Mathlib

/-!
Command-Line-Game (`game.js`): a verification development

A shallow embedding of `src/game.js` (generalised rock-paper-scissors with an
HMAC commitment) and the properties of its win rule, input validation, help
table and session control flow.

Modelling conventions.
* JavaScript numbers that hold indices and lengths are integers far below
  `2^53`, so they are embedded as `Int`, exactly.  The operator `%` of
  JavaScript keeps the sign of the dividend: it is `Int.tmod`.
  `Math.floor (a / 2)` is `Int.fdiv a 2`.
* `NaN` and `null` are `none`.
* `crypto.randomBytes`, `Math.random` and HMAC-SHA256 are not computed here:
  the key, the random index and the function `calculateHMAC` are parameters.
* `console.log` appends one entry to the transcript of the session.
* `readline`: `createInterface` starts reading `process.stdin` and `rl.close()`
  pauses that stream.  Every interface of the program shares the one stream, so
  a `close()` that runs after a new question has been asked leaves that question
  without input and the process ends.
-/

namespace Game

/-! ## GameLogic -/

/-- The three strings `determineWinner` returns: `'Win'`, `'Lose'`, `'Draw'`. -/
inductive Outcome where
  | Win
  | Lose
  | Draw
  deriving DecidableEq, Repr

/-- The text of an outcome, as it is interpolated into a template literal. -/
def Outcome.toString : Outcome → String
  | Outcome.Win => "Win"
  | Outcome.Lose => "Lose"
  | Outcome.Draw => "Draw"

/-- `GameLogic.determineWinner(userMoveIndex, computerMoveIndex, totalMoves)`. -/
def determineWinner (userMoveIndex computerMoveIndex totalMoves : Int) : Outcome :=
  let p := Int.fdiv totalMoves 2
  let result := Int.tmod (userMoveIndex - computerMoveIndex + totalMoves) totalMoves
  if result = 0 then Outcome.Draw
  else if result ≤ p then Outcome.Win else Outcome.Lose

/-- The rule as the specification words it: `half = floor (N / 2)`, `delta` the
non-negative residue of `userIndex - computerIndex` modulo `N`; `Draw` when
`delta = 0`, `Win` when `1 ≤ delta ≤ half`, `Lose` when `half < delta < N`. -/
def referenceOutcome (userIndex computerIndex N : Int) : Outcome :=
  let half := N / 2
  let delta := (userIndex - computerIndex) % N
  if delta = 0 then Outcome.Draw
  else if 1 ≤ delta ∧ delta ≤ half then Outcome.Win
  else Outcome.Lose

/-! ## KeyManager

`KeyManager.generateKey()` draws 32 random bytes and `KeyManager.calculateHMAC`
is HMAC-SHA256 in hexadecimal.  Neither is computed here: the generated key is
a parameter `key : String` of the constructor and the digest is a parameter
`calculateHMAC : String → String → String`, a deterministic function about
which nothing else is assumed. -/

/-! ## HelpTable -/

/-- The text appended for cell `(i, j)` by the inner loop of `generateTable`. -/
def tableCell (i j totalMoves : Nat) : String :=
  if i = j then " Draw  |"
  else if determineWinner i j totalMoves = Outcome.Win then " Win   |" else " Lose  |"

/-- One pass of the outer loop of `generateTable`: the row label, the inner loop
over `j`, and the line break. -/
def tableRow (moves : List String) (totalMoves : Nat) (table : String) (i : Nat) : String :=
  let table := table ++ ("| " ++ moves.getD i "undefined" ++ "    |")
  let table := (List.range totalMoves).foldl (fun t j => t ++ tableCell i j totalMoves) table
  table ++ "\n"

/-- `HelpTable.generateTable(moves)`: the string handed to `console.log`. -/
def generateTable (moves : List String) : String :=
  let totalMoves := moves.length
  let table := "+------------+ " ++ String.intercalate " | " moves ++ " +\n"
  let table := table ++ ("+------------+" ++ String.mk (List.replicate (12 * totalMoves) '-') ++ "+\n")
  (List.range totalMoves).foldl (tableRow moves totalMoves) table

/-- The two heading lines of the help table. -/
def tableHeading (moves : List String) : String :=
  "+------------+ " ++ String.intercalate " | " moves ++ " +\n" ++
    ("+------------+" ++ String.mk (List.replicate (12 * moves.length) '-') ++ "+\n")

/-- The fixed-width text of a cell that shows a given outcome. -/
def cellText : Outcome → String
  | Outcome.Win => " Win   |"
  | Outcome.Lose => " Lose  |"
  | Outcome.Draw => " Draw  |"

/-- What cell `(i, j)` is specified to show: `Draw` on the diagonal, otherwise the
verdict of the win rule for row move `i` against column move `j`. -/
def expectedCell (i j N : Nat) : Outcome :=
  if i = j then Outcome.Draw else determineWinner i j N

/-! ## JavaScript helpers used by GameManager -/

/-- Reading `a[i]` for a number `i`: `none` stands for `undefined`. -/
def arrayGet (a : List String) (i : Int) : Option String :=
  if 0 ≤ i then a[i.toNat]? else none

/-- The text of a value interpolated into a template literal. -/
def display (v : Option String) : String :=
  v.getD "undefined"

/-- `Array.prototype.indexOf`: the first position of `x`, or `-1`. -/
def indexOf (a : List String) (x : String) : Int :=
  if x ∈ a then (List.indexOf x a : Nat) else -1

/-- White space and line terminators, which `parseInt` skips at the start. -/
def isWhiteSpace (c : Char) : Bool :=
  let n := c.toNat
  n = 0x09 || n = 0x0A || n = 0x0B || n = 0x0C || n = 0x0D || n = 0x20 || n = 0xA0 ||
  n = 0x1680 || (0x2000 ≤ n && n ≤ 0x200A) || n = 0x2028 || n = 0x2029 || n = 0x202F ||
  n = 0x205F || n = 0x3000 || n = 0xFEFF

/-- The value of a character read as a digit in some radix up to 36. -/
def digitValue (c : Char) : Option Nat :=
  let n := c.toNat
  if 48 ≤ n ∧ n ≤ 57 then some (n - 48)
  else if 97 ≤ n ∧ n ≤ 122 then some (n - 97 + 10)
  else if 65 ≤ n ∧ n ≤ 90 then some (n - 65 + 10)
  else none

/-- Whether a character is a digit of radix `R`. -/
def isRadixDigit (R : Nat) (c : Char) : Bool :=
  match digitValue c with
  | some d => decide (d < R)
  | none => false

/-- The number a list of radix-`R` digits denotes. -/
def digitsValue (R : Nat) (Z : List Char) : Nat :=
  Z.foldl (fun n c => n * R + (digitValue c).getD 0) 0

/-- The sign step of `parseInt`: a leading `-` or `+` is removed. -/
def parseSign : List Char → Int × List Char
  | '-' :: rest => (-1, rest)
  | '+' :: rest => (1, rest)
  | S => (1, S)

/-- The radix step of `parseInt` called without a radix: `0x` or `0X` selects 16. -/
def parseRadix : List Char → Nat × List Char
  | '0' :: 'x' :: rest => (16, rest)
  | '0' :: 'X' :: rest => (16, rest)
  | S => (10, S)

/-- `parseInt(input)` with no radix argument, `none` for `NaN`: leading white space
is skipped, a sign and a `0x` marker are read, then the longest run of digits;
whatever follows is ignored.  (The result is exact here; the code only compares
it with zero and with the length of the move list, where rounding a huge value
to a double makes no difference.) -/
def parseInt (input : String) : Option Int :=
  let S := input.data.dropWhile isWhiteSpace
  let (sign, S) := parseSign S
  let (R, S) := parseRadix S
  let Z := S.takeWhile (isRadixDigit R)
  if Z = [] then none else some (sign * (digitsValue R Z : Nat))

/-! ## GameManager -/

/-- The fields of a `GameManager` object. -/
structure GameManager where
  moves : List String
  key : String
  computerMove : String
  hmac : String
  deriving DecidableEq, Repr

/-- The `GameManager` constructor.  `key` is the value of `KeyManager.generateKey()`
and `rnd` the value of `Math.floor(Math.random() * moves.length)`, which lies in
`[0, moves.length)`; outside it `moves[rnd]` would be `undefined` and the HMAC
update would throw, which is `none`. -/
def GameManager.constructor (calculateHMAC : String → String → String)
    (moves : List String) (key : String) (rnd : Nat) : Option GameManager :=
  match moves[rnd]? with
  | none => none
  | some computerMove =>
    some { moves := moves, key := key, computerMove := computerMove,
           hmac := calculateHMAC key computerMove }

/-- Where a session stands.  `AwaitingSelection`: a question is pending and
standard input is being read.  `InputClosed`: a question has been asked, but
`rl.close()` has paused standard input since, so no further line is read and the
process ends.  `RoundComplete`: the result has been printed.  `Exited`: the user
has left with `0`. -/
inductive Status where
  | AwaitingSelection
  | InputClosed
  | RoundComplete
  | Exited
  deriving DecidableEq, Repr

/-- A running session: the manager object, everything written to the console so
far, and the status. -/
structure Session where
  gm : GameManager
  transcript : List String
  status : Status
  deriving DecidableEq, Repr

/-- The lines `showMenu` writes: the numbered moves, the two fixed entries and
the prompt of `rl.question`. -/
def menuLines (moves : List String) : List String :=
  ["Available moves:"] ++
    moves.enum.map (fun p => toString (p.1 + 1) ++ " - " ++ p.2) ++
    ["0 - exit", "? - help", "Enter your move: "]

/-- `GameManager.processResult(userMoveIndex)`: the four lines it logs. -/
def processResult (gm : GameManager) (userMoveIndex : Int) : List String :=
  let userMove := arrayGet gm.moves userMoveIndex
  let result := determineWinner userMoveIndex (indexOf gm.moves gm.computerMove) gm.moves.length
  ["Your move: " ++ display userMove,
   "Computer move: " ++ gm.computerMove,
   "You " ++ result.toString ++ "!",
   "HMAC key: " ++ gm.key]

/-- `GameManager.showMenu()` up to the point where it waits for a line. -/
def showMenu (s : Session) : Session :=
  { s with transcript := s.transcript ++ menuLines s.gm.moves,
           status := Status.AwaitingSelection }

/-- The call `rl.close()` that ends every branch of the callback, on the interface
whose question has just been answered: it pauses `process.stdin`.  Where the
branch has already run the nested `this.showMenu()`, the new question is on that
same stream and stays unanswered. -/
def rlClose (s : Session) : Session :=
  match s.status with
  | Status.AwaitingSelection => { s with status := Status.InputClosed }
  | _ => s

/-- The callback `showMenu` passes to `rl.question`, run on the line read. -/
def onInput (s : Session) (input : String) : Session :=
  if input = "0" then
    rlClose { s with transcript := s.transcript ++ ["Exiting..."], status := Status.Exited }
  else if input = "?" then
    rlClose (showMenu { s with transcript := s.transcript ++ [generateTable s.gm.moves] })
  else
    match (parseInt input).map (fun (n : Int) => n - 1) with
    | none =>
      rlClose (showMenu
        { s with transcript := s.transcript ++ ["Invalid move, please try again."] })
    | some userMoveIndex =>
      if userMoveIndex < 0 ∨ userMoveIndex ≥ s.gm.moves.length then
        rlClose (showMenu
          { s with transcript := s.transcript ++ ["Invalid move, please try again."] })
      else
        rlClose { s with transcript := s.transcript ++ processResult s.gm userMoveIndex,
                         status := Status.RoundComplete }

/-- `GameManager.start()`. -/
def start (gm : GameManager) : Session :=
  showMenu { gm := gm, transcript := ["HMAC: " ++ gm.hmac], status := Status.AwaitingSelection }

/-- One line offered on standard input: it reaches the callback only while a
question is pending and the stream is being read. -/
def step (s : Session) (input : String) : Session :=
  if s.status = Status.AwaitingSelection then onInput s input else s

/-- The session after a sequence of input lines. -/
def feed (s : Session) (inputs : List String) : Session :=
  inputs.foldl step s

/-! ## Start-up -/

/-- `validateInput(args)`: `Except.error` stands for the `null` result and carries
the line written to the error stream. -/
def validateInput (args : List String) : Except String (List String) :=
  let moves := args.drop 2
  if moves.length < 3 ∨ moves.length % 2 = 0 then
    Except.error "Error: Please provide an odd number of moves (>= 3)."
  else if moves.dedup.length ≠ moves.length then
    Except.error "Error: Moves should be unique."
  else
    Except.ok moves

/-- The top level of the program: what exists once it has started.  `manager` is
the `GameManager` built, if any; `session` the session begun by `start()`. -/
structure Program where
  stderr : List String
  manager : Option GameManager
  session : Option Session
  deriving DecidableEq, Repr

/-- The top-level statements: validate `process.argv`, and only when a move list
comes back build the manager and start it. -/
def main (calculateHMAC : String → String → String) (argv : List String)
    (key : String) (rnd : Nat) : Program :=
  match validateInput argv with
  | Except.error msg => { stderr := [msg], manager := none, session := none }
  | Except.ok moves =>
    match GameManager.constructor calculateHMAC moves key rnd with
    | none => { stderr := [], manager := none, session := none }
    | some gameManager =>
      { stderr := [], manager := some gameManager, session := some (start gameManager) }

/-! ## Notions of the specification used to state the claims -/

/-- A line that is a decimal numeral: one or more of the digits `0`-`9` and
nothing else; its value. -/
def decimalNumeral (input : String) : Option Nat :=
  if input.data ≠ [] ∧ input.data.all Char.isDigit then
    some (input.data.foldl (fun n c => n * 10 + (c.toNat - 48)) 0)
  else none

/-- A line that is a valid 1-based index into a move set of `N` moves: a decimal
numeral `n` with `1 ≤ n ≤ N`. -/
def validSelection (input : String) (N : Nat) : Prop :=
  ∃ n, decimalNumeral input = some n ∧ 1 ≤ n ∧ n ≤ N

/-- A sample manager for three moves, used to instantiate statements. -/
def sampleManager : GameManager :=
  { moves := ["rock", "paper", "scissors"], key := "k", computerMove := "rock", hmac := "h" }

/-- The pieces of a text put one after the other. -/
def concatAll : List String → String
  | [] => ""
  | piece :: rest => piece ++ concatAll rest

/-- The body of the help table as the specification describes it: one line per
move, its label followed by one cell per move. -/
def expectedBody (moves : List String) : String :=
  concatAll (moves.enum.map (fun row =>
    "| " ++ row.2 ++ "    |" ++
      concatAll ((List.range moves.length).map
        (fun j => cellText (expectedCell row.1 j moves.length))) ++ "\n"))

end Game

namespace Game

/-- On valid indices the remainder computed by the code is the cyclic distance
from the computer's index forward to the user's index. -/
theorem tmod_delta (u c N : Int) (hu0 : 0 ≤ u) (huN : u < N)
    (hc0 : 0 ≤ c) (hcN : c < N) :
    Int.tmod (u - c + N) N = if c ≤ u then u - c else u - c + N := by
  rw [Int.tmod_eq_emod (by omega) (by omega)]
  split_ifs with h
  · rw [Int.add_emod_self]
    exact Int.emod_eq_of_lt (by omega) (by omega)
  · exact Int.emod_eq_of_lt (by omega) (by omega)

/-- The mathematical residue of the difference of two valid indices. -/
theorem emod_delta (u c N : Int) (hu0 : 0 ≤ u) (huN : u < N)
    (hc0 : 0 ≤ c) (hcN : c < N) :
    (u - c) % N = if c ≤ u then u - c else u - c + N := by
  split_ifs with h
  · exact Int.emod_eq_of_lt (by omega) (by omega)
  · rw [← Int.add_emod_self]
    exact Int.emod_eq_of_lt (by omega) (by omega)

/-- The code's rule on valid indices, with the remainder and the floor unfolded. -/
theorem determineWinner_cases (u c N : Int) (hu0 : 0 ≤ u) (huN : u < N)
    (hc0 : 0 ≤ c) (hcN : c < N) :
    determineWinner u c N =
      if u = c then Outcome.Draw
      else if (c < u ∧ 2 * (u - c) ≤ N) ∨ (u < c ∧ 2 * (u - c + N) ≤ N) then Outcome.Win
      else Outcome.Lose := by
  unfold determineWinner
  rw [tmod_delta u c N hu0 huN hc0 hcN, Int.fdiv_eq_ediv _ (by decide)]
  simp only []
  split_ifs <;> first | rfl | omega

/-- When the code says `Win`, on natural-number indices. -/
theorem win_iff_nat (N i j : Nat) (hi : i < N) (hj : j < N) :
    determineWinner i j N = Outcome.Win ↔
      (j < i ∧ 2 * i ≤ N + 2 * j) ∨ (i < j ∧ 2 * i + N ≤ 2 * j) := by
  rw [determineWinner_cases i j N (by omega) (by omega) (by omega) (by omega)]
  split_ifs <;> simp <;> omega

/-- When the code says `Lose`, on natural-number indices. -/
theorem lose_iff_nat (N i j : Nat) (hi : i < N) (hj : j < N) :
    determineWinner i j N = Outcome.Lose ↔
      (j < i ∧ N + 2 * j < 2 * i) ∨ (i < j ∧ 2 * j < 2 * i + N) := by
  rw [determineWinner_cases i j N (by omega) (by omega) (by omega) (by omega)]
  split_ifs <;> simp <;> omega

/-- Distinct valid indices never draw. -/
theorem ne_draw_nat (N i j : Nat) (hi : i < N) (hj : j < N) (hij : i ≠ j) :
    determineWinner i j N ≠ Outcome.Draw := by
  rw [determineWinner_cases i j N (by omega) (by omega) (by omega) (by omega)]
  have hcast : (i : Int) ≠ (j : Int) := fun h => hij (by exact_mod_cast h)
  rw [if_neg hcast]
  split_ifs <;> simp

/-- The columns a row wins against: the `half` indices before it, cyclically. -/
theorem win_set (N i : Nat) (hodd : N % 2 = 1) (hi : i < N) :
    (Finset.range N).filter (fun (j : Nat) => determineWinner i j N = Outcome.Win) =
      Finset.Ico (i - (N - 1) / 2) i ∪ Finset.Ico (i + N - (N - 1) / 2) N := by
  ext j
  simp only [Finset.mem_filter, Finset.mem_range, Finset.mem_union, Finset.mem_Ico]
  constructor
  · rintro ⟨hj, hw⟩
    rw [win_iff_nat N i j hi hj] at hw
    omega
  · intro h
    have hj : j < N := by omega
    refine ⟨hj, ?_⟩
    rw [win_iff_nat N i j hi hj]
    omega

/-- The columns a row loses against: the `half` indices after it, cyclically. -/
theorem lose_set (N i : Nat) (hodd : N % 2 = 1) (hi : i < N) :
    (Finset.range N).filter (fun (j : Nat) => determineWinner i j N = Outcome.Lose) =
      Finset.Ico (i + 1) (min (i + (N - 1) / 2 + 1) N) ∪
        Finset.Ico 0 (i + (N - 1) / 2 + 1 - N) := by
  ext j
  simp only [Finset.mem_filter, Finset.mem_range, Finset.mem_union, Finset.mem_Ico]
  constructor
  · rintro ⟨hj, hw⟩
    rw [lose_iff_nat N i j hi hj] at hw
    omega
  · intro h
    have hj : j < N := by omega
    refine ⟨hj, ?_⟩
    rw [lose_iff_nat N i j hi hj]
    omega

/-- C1. For odd `N ≥ 3` and distinct valid indices, `determineWinner i j N` and
`determineWinner j i N` are opposite: each is `Win` exactly when the other is
`Lose`, and neither is `Draw`. -/
theorem determineWinner_opposite (N i j : Int) (hodd : N % 2 = 1) (hN : 3 ≤ N)
    (hi0 : 0 ≤ i) (hiN : i < N) (hj0 : 0 ≤ j) (hjN : j < N) (hij : i ≠ j) :
    (determineWinner i j N = Outcome.Win ↔ determineWinner j i N = Outcome.Lose) ∧
    (determineWinner j i N = Outcome.Win ↔ determineWinner i j N = Outcome.Lose) ∧
    determineWinner i j N ≠ Outcome.Draw ∧ determineWinner j i N ≠ Outcome.Draw := by
  rw [determineWinner_cases i j N hi0 hiN hj0 hjN, determineWinner_cases j i N hj0 hjN hi0 hiN]
  have hji : j ≠ i := fun h => hij h.symm
  simp only [if_neg hij, if_neg hji]
  refine ⟨?_, ?_, ?_, ?_⟩ <;> split_ifs <;> simp <;> omega

theorem determineWinner_opposite_witness :
    (determineWinner 4 1 5 = Outcome.Win ↔ determineWinner 1 4 5 = Outcome.Lose) ∧
    (determineWinner 1 4 5 = Outcome.Win ↔ determineWinner 4 1 5 = Outcome.Lose) ∧
    determineWinner 4 1 5 ≠ Outcome.Draw ∧ determineWinner 1 4 5 ≠ Outcome.Draw :=
  determineWinner_opposite 5 4 1 (by decide) (by decide) (by decide) (by decide)
    (by decide) (by decide) (by decide)

/-- C4. For odd `N ≥ 3` and valid indices, `determineWinner i j N` is `Draw` if
and only if `i = j`; in particular `determineWinner i i N` is `Draw`. -/
theorem determineWinner_draw_iff (N i j : Int) (hodd : N % 2 = 1) (hN : 3 ≤ N)
    (hi0 : 0 ≤ i) (hiN : i < N) (hj0 : 0 ≤ j) (hjN : j < N) :
    (determineWinner i j N = Outcome.Draw ↔ i = j) ∧
    determineWinner i i N = Outcome.Draw := by
  rw [determineWinner_cases i j N hi0 hiN hj0 hjN, determineWinner_cases i i N hi0 hiN hi0 hiN]
  refine ⟨?_, by simp⟩
  split_ifs <;> simp_all

theorem determineWinner_draw_iff_witness :
    (determineWinner 2 6 7 = Outcome.Draw ↔ (2 : Int) = 6) ∧
    determineWinner 2 2 7 = Outcome.Draw :=
  determineWinner_draw_iff 7 2 6 (by decide) (by decide) (by decide) (by decide)
    (by decide) (by decide)

/-- C5. For odd `N ≥ 3` and valid indices the code agrees with the reference
rule of the specification, and the sign-preserving remainder it takes of
`userIndex - computerIndex + N` is non-negative and equals the mathematical
residue of `userIndex - computerIndex` modulo `N`. -/
theorem determineWinner_eq_reference (N userIndex computerIndex : Int)
    (hodd : N % 2 = 1) (hN : 3 ≤ N)
    (hu0 : 0 ≤ userIndex) (huN : userIndex < N)
    (hc0 : 0 ≤ computerIndex) (hcN : computerIndex < N) :
    determineWinner userIndex computerIndex N = referenceOutcome userIndex computerIndex N ∧
    0 ≤ Int.tmod (userIndex - computerIndex + N) N ∧
    Int.tmod (userIndex - computerIndex + N) N = (userIndex - computerIndex) % N := by
  have ht := tmod_delta userIndex computerIndex N hu0 huN hc0 hcN
  have he := emod_delta userIndex computerIndex N hu0 huN hc0 hcN
  refine ⟨?_, ?_, ?_⟩
  · rw [determineWinner_cases userIndex computerIndex N hu0 huN hc0 hcN]
    unfold referenceOutcome
    rw [he]
    simp only []
    split_ifs <;> first | rfl | omega
  · rw [ht]; split_ifs <;> omega
  · rw [ht, he]

theorem determineWinner_eq_reference_witness :
    determineWinner 0 2 3 = referenceOutcome 0 2 3 ∧
    0 ≤ Int.tmod ((0 : Int) - 2 + 3) 3 ∧
    Int.tmod ((0 : Int) - 2 + 3) 3 = ((0 : Int) - 2) % 3 :=
  determineWinner_eq_reference 3 0 2 (by decide) (by decide) (by decide) (by decide)
    (by decide) (by decide)

/-- C2. For odd `N ≥ 3` and every valid index `i`, exactly `(N - 1) / 2` indices
`j` in `[0, N)` give `determineWinner i j N = Win` and exactly `(N - 1) / 2`
give `Lose`. -/
theorem determineWinner_fair (N i : Nat) (hodd : N % 2 = 1) (hN : 3 ≤ N) (hi : i < N) :
    ((Finset.range N).filter (fun (j : Nat) => determineWinner i j N = Outcome.Win)).card
      = (N - 1) / 2 ∧
    ((Finset.range N).filter (fun (j : Nat) => determineWinner i j N = Outcome.Lose)).card
      = (N - 1) / 2 := by
  constructor
  · rw [win_set N i hodd hi, Finset.card_union_of_disjoint, Nat.card_Ico, Nat.card_Ico]
    · omega
    · rw [Finset.disjoint_left]
      intro a ha hb
      simp only [Finset.mem_Ico] at ha hb
      omega
  · rw [lose_set N i hodd hi, Finset.card_union_of_disjoint, Nat.card_Ico, Nat.card_Ico]
    · omega
    · rw [Finset.disjoint_left]
      intro a ha hb
      simp only [Finset.mem_Ico] at ha hb
      omega

theorem determineWinner_fair_witness :
    ((Finset.range 5).filter (fun (j : Nat) => determineWinner (1 : Nat) j (5 : Nat) = Outcome.Win)).card
      = (5 - 1) / 2 ∧
    ((Finset.range 5).filter (fun (j : Nat) => determineWinner (1 : Nat) j (5 : Nat) = Outcome.Lose)).card
      = (5 - 1) / 2 :=
  determineWinner_fair 5 1 (by decide) (by decide) (by decide)

/-- C3, as the code has it. For odd `N ≥ 3`, a computer index `c` and
`1 ≤ k ≤ floor (N / 2)`: the user whose index is `(c + k) mod N` wins and the
user whose index is `(c - k) mod N` loses, so each move beats the `half` moves
before it in the list (cyclically) and loses to the `half` moves after it.  With
moves `[rock, scissors, paper]`, computer index 0 and user index 1 the round is
reported as a win. -/
theorem determineWinner_cyclic (N c k : Int) (hodd : N % 2 = 1) (hN : 3 ≤ N)
    (hc0 : 0 ≤ c) (hcN : c < N) (hk1 : 1 ≤ k) (hk : k ≤ N / 2) :
    determineWinner ((c + k) % N) c N = Outcome.Win ∧
    determineWinner ((c - k) % N) c N = Outcome.Lose ∧
    processResult
        { moves := ["rock", "scissors", "paper"], key := "", computerMove := "rock", hmac := "" } 1
      = ["Your move: scissors", "Computer move: rock", "You Win!", "HMAC key: "] := by
  have hplus : (c + k) % N = if c + k < N then c + k else c + k - N := by
    split_ifs with h
    · exact Int.emod_eq_of_lt (by omega) h
    · have h2 : (c + k - N + N) % N = (c + k - N) % N := Int.add_emod_self
      rw [show c + k - N + N = c + k by omega] at h2
      rw [h2]
      exact Int.emod_eq_of_lt (by omega) (by omega)
  have hminus : (c - k) % N = if k ≤ c then c - k else c - k + N := by
    split_ifs with h
    · exact Int.emod_eq_of_lt (by omega) (by omega)
    · rw [← Int.add_emod_self]
      exact Int.emod_eq_of_lt (by omega) (by omega)
  refine ⟨?_, ?_, by decide⟩
  · rw [determineWinner_cases _ c N (Int.emod_nonneg _ (by omega))
      (Int.emod_lt_of_pos _ (by omega)) hc0 hcN, hplus]
    split_ifs <;> first | rfl | omega
  · rw [determineWinner_cases _ c N (Int.emod_nonneg _ (by omega))
      (Int.emod_lt_of_pos _ (by omega)) hc0 hcN, hminus]
    split_ifs <;> first | rfl | omega

theorem determineWinner_cyclic_witness :
    determineWinner ((3 + 2) % 5) 3 5 = Outcome.Win ∧
    determineWinner ((3 - 2) % 5) 3 5 = Outcome.Lose ∧
    processResult
        { moves := ["rock", "scissors", "paper"], key := "", computerMove := "rock", hmac := "" } 1
      = ["Your move: scissors", "Computer move: rock", "You Win!", "HMAC key: "] :=
  determineWinner_cyclic 5 3 2 (by decide) (by decide) (by decide) (by decide)
    (by decide) (by decide)

/-- C3 as stated fails: with `N = 3`, computer index 0 and user index
`(0 + 1) mod 3 = 1` (moves `[rock, scissors, paper]`) the code answers `Win`, not
`Lose`, and `processResult` prints `You Win!`. -/
theorem determineWinner_next_not_lose :
    determineWinner ((0 + 1) % 3) 0 3 = Outcome.Win ∧
    determineWinner ((0 + 1) % 3) 0 3 ≠ Outcome.Lose ∧
    (processResult
        { moves := ["rock", "scissors", "paper"], key := "k", computerMove := "rock",
          hmac := "h" } 1).get? 2 = some "You Win!" := by
  decide

/-- A loop that appends one piece per element builds the concatenation. -/
theorem foldl_append_eq (f : Nat → String) (l : List Nat) (init : String) :
    l.foldl (fun t x => t ++ f x) init = init ++ concatAll (l.map f) := by
  induction l generalizing init with
  | nil => simp [concatAll]
  | cons a l ih => simp [concatAll, ih, String.append_assoc]

/-- Off the diagonal the cell text is the text of the win rule's verdict. -/
theorem tableCell_eq (N i j : Nat) (hi : i < N) (hj : j < N) :
    tableCell i j N = cellText (expectedCell i j N) := by
  unfold tableCell expectedCell
  by_cases hij : i = j
  · simp [hij, cellText]
  · simp only [if_neg hij]
    have hd := ne_draw_nat N i j hi hj hij
    cases h : determineWinner (i : Int) (j : Int) (N : Int) with
    | Win => simp [cellText]
    | Lose => simp [cellText]
    | Draw => exact absurd h hd

/-- One pass of the outer loop appends the text of one row. -/
theorem tableRow_eq (moves : List String) (table : String) (i : Nat)
    (hi : i < moves.length) :
    tableRow moves moves.length table i =
      table ++ ("| " ++ moves[i] ++ "    |" ++
        concatAll ((List.range moves.length).map
          (fun j => cellText (expectedCell i j moves.length))) ++ "\n") := by
  unfold tableRow
  simp only []
  rw [foldl_append_eq (fun j => tableCell i j moves.length)]
  have hcells : (List.range moves.length).map (fun j => tableCell i j moves.length) =
      (List.range moves.length).map (fun j => cellText (expectedCell i j moves.length)) := by
    apply List.map_congr_left
    intro j hj
    exact tableCell_eq moves.length i j hi (List.mem_range.1 hj)
  rw [hcells, List.getD_eq_getElem _ _ hi]
  simp only [String.append_assoc]

/-- Mapping over the positions of a list is mapping over its enumeration. -/
theorem map_range_eq_map_enum (moves : List String) (g : Nat → String → String) :
    (List.range moves.length).map (fun i => g i (moves.getD i "")) =
      moves.enum.map (fun row => g row.1 row.2) := by
  apply List.ext_getElem
  · simp
  · intro n h1 h2
    have hn : n < moves.length := by simpa using h1
    simp [List.getElem?_eq_getElem hn]

/-- The outer loop of `generateTable` appends the rows one after the other. -/
theorem outer_loop_eq (moves : List String) (l : List Nat) (table : String)
    (hl : ∀ i ∈ l, i < moves.length) :
    l.foldl (tableRow moves moves.length) table =
      table ++ concatAll (l.map (fun i =>
        "| " ++ moves.getD i "" ++ "    |" ++
          concatAll ((List.range moves.length).map
            (fun j => cellText (expectedCell i j moves.length))) ++ "\n")) := by
  induction l generalizing table with
  | nil => simp [concatAll]
  | cons a l ih =>
    have ha : a < moves.length := hl a (List.mem_cons_self a l)
    have hl2 : ∀ i ∈ l, i < moves.length := fun i hi => hl i (List.mem_cons_of_mem a hi)
    rw [List.foldl_cons, tableRow_eq moves table a ha, ih _ hl2, List.map_cons, concatAll,
      List.getD_eq_getElem _ _ ha, String.append_assoc]

/-- The whole table: the heading and then the specified body. -/
theorem generateTable_eq (moves : List String) :
    generateTable moves = tableHeading moves ++ expectedBody moves := by
  unfold generateTable tableHeading expectedBody
  simp only []
  rw [outer_loop_eq moves _ _ (fun i hi => List.mem_range.1 hi)]
  rw [map_range_eq_map_enum moves (fun i m =>
    "| " ++ m ++ "    |" ++
      concatAll ((List.range moves.length).map
        (fun j => cellText (expectedCell i j moves.length))) ++ "\n")]

/-- C7. For a validated move list (odd length `N ≥ 3`, distinct labels) the table
built by `generateTable` is its heading followed by `N` rows of `N` cells, where
cell `(i, j)` shows `Draw` when `i = j` and otherwise the outcome
`determineWinner i j N`, which is `Win` or `Lose`; so for `i ≠ j` cell `(i, j)`
shows `Win` if and only if cell `(j, i)` shows `Lose`. -/
theorem generateTable_cells (moves : List String) (hodd : moves.length % 2 = 1)
    (hlen : 3 ≤ moves.length) (hnd : moves.Nodup) :
    generateTable moves = tableHeading moves ++ expectedBody moves ∧
    (∀ i j, i < moves.length → j < moves.length →
      tableCell i j moves.length = cellText (expectedCell i j moves.length) ∧
      (i = j → expectedCell i j moves.length = Outcome.Draw) ∧
      (i ≠ j →
        expectedCell i j moves.length = determineWinner i j moves.length ∧
        (expectedCell i j moves.length = Outcome.Win ∨
          expectedCell i j moves.length = Outcome.Lose) ∧
        (tableCell i j moves.length = " Win   |" ↔
          tableCell j i moves.length = " Lose  |"))) := by
  refine ⟨generateTable_eq moves, ?_⟩
  intro i j hi hj
  refine ⟨tableCell_eq _ i j hi hj, fun h => by simp [expectedCell, h], fun hij => ?_⟩
  have hji : j ≠ i := fun h => hij h.symm
  have hdij := ne_draw_nat moves.length i j hi hj hij
  have hdji := ne_draw_nat moves.length j i hj hi hji
  have hopp : determineWinner i j moves.length = Outcome.Win ↔
      determineWinner j i moves.length = Outcome.Lose := by
    rw [win_iff_nat moves.length i j hi hj, lose_iff_nat moves.length j i hj hi]
    omega
  refine ⟨by simp [expectedCell, hij], ?_, ?_⟩
  · simp only [expectedCell, if_neg hij]
    cases h : determineWinner (i : Int) (j : Int) (moves.length : Int) with
    | Win => simp
    | Lose => simp
    | Draw => exact absurd h hdij
  · rw [tableCell_eq _ i j hi hj, tableCell_eq _ j i hj hi]
    simp only [expectedCell, if_neg hij, if_neg hji]
    cases hw : determineWinner (i : Int) (j : Int) (moves.length : Int) <;>
      cases hl : determineWinner (j : Int) (i : Int) (moves.length : Int) <;>
      simp_all [cellText]

theorem generateTable_cells_witness :
    generateTable ["rock", "paper", "scissors"] =
      tableHeading ["rock", "paper", "scissors"] ++ expectedBody ["rock", "paper", "scissors"] ∧
    (∀ i j, i < ["rock", "paper", "scissors"].length → j < ["rock", "paper", "scissors"].length →
      tableCell i j ["rock", "paper", "scissors"].length
        = cellText (expectedCell i j ["rock", "paper", "scissors"].length) ∧
      (i = j → expectedCell i j ["rock", "paper", "scissors"].length = Outcome.Draw) ∧
      (i ≠ j →
        expectedCell i j ["rock", "paper", "scissors"].length
          = determineWinner i j ["rock", "paper", "scissors"].length ∧
        (expectedCell i j ["rock", "paper", "scissors"].length = Outcome.Win ∨
          expectedCell i j ["rock", "paper", "scissors"].length = Outcome.Lose) ∧
        (tableCell i j ["rock", "paper", "scissors"].length = " Win   |" ↔
          tableCell j i ["rock", "paper", "scissors"].length = " Lose  |"))) :=
  generateTable_cells ["rock", "paper", "scissors"] (by decide) (by decide) (by decide)

/-- The size of `new Set(moves)` is the length of `moves` exactly when no label
occurs twice. -/
theorem dedup_length_eq_iff (moves : List String) :
    moves.dedup.length = moves.length ↔ moves.Nodup := by
  constructor
  · intro h
    have hd : moves.dedup = moves := (List.dedup_sublist moves).eq_of_length h
    exact List.dedup_eq_self.1 hd
  · intro h
    rw [List.dedup_eq_self.2 h]

/-- C6. With `moves` the arguments after the first two: `validateInput` rejects
(returns `null`) if and only if `moves` has fewer than 3 elements, or an even
number of them, or two equal labels; otherwise it returns exactly `moves`.
`[rock, paper]` and `[rock, rock, scissors]` are rejected, `[rock, scissors,
paper]` is accepted.  When it rejects, the program builds no `GameManager` and
starts no session. -/
theorem validateInput_spec (calculateHMAC : String → String → String)
    (args : List String) (key : String) (rnd : Nat) :
    ((∃ msg, validateInput args = Except.error msg) ↔
      ((args.drop 2).length < 3 ∨ (args.drop 2).length % 2 = 0 ∨ ¬ (args.drop 2).Nodup)) ∧
    ((¬ ((args.drop 2).length < 3 ∨ (args.drop 2).length % 2 = 0 ∨ ¬ (args.drop 2).Nodup)) →
      validateInput args = Except.ok (args.drop 2)) ∧
    ((∃ msg, validateInput args = Except.error msg) →
      (main calculateHMAC args key rnd).manager = none ∧
      (main calculateHMAC args key rnd).session = none) ∧
    (∃ msg, validateInput ["node", "game.js", "rock", "paper"] = Except.error msg) ∧
    (∃ msg, validateInput ["node", "game.js", "rock", "rock", "scissors"] = Except.error msg) ∧
    validateInput ["node", "game.js", "rock", "scissors", "paper"]
      = Except.ok ["rock", "scissors", "paper"] := by
  refine ⟨?_, ?_, ?_, ⟨_, rfl⟩, ⟨_, rfl⟩, rfl⟩
  · unfold validateInput
    simp only []
    rw [← dedup_length_eq_iff]
    split_ifs with h1 h2
    · constructor
      · intro _
        rcases h1 with h | h
        · exact Or.inl h
        · exact Or.inr (Or.inl h)
      · intro _; exact ⟨_, rfl⟩
    · constructor
      · intro _; exact Or.inr (Or.inr h2)
      · intro _; exact ⟨_, rfl⟩
    · constructor
      · rintro ⟨msg, hmsg⟩; cases hmsg
      · rintro (h | h | h)
        · exact absurd (Or.inl h) h1
        · exact absurd (Or.inr h) h1
        · exact absurd (not_not.1 h2) h
  · intro h
    unfold validateInput
    simp only []
    rw [← dedup_length_eq_iff] at h
    have h1 : ¬ ((args.drop 2).length < 3 ∨ (args.drop 2).length % 2 = 0) := by
      rintro (h' | h')
      · exact h (Or.inl h')
      · exact h (Or.inr (Or.inl h'))
    have h2 : ¬ ((args.drop 2).dedup.length ≠ (args.drop 2).length) := by
      intro h'
      exact h (Or.inr (Or.inr h'))
    rw [if_neg h1, if_neg h2]
  · rintro ⟨msg, hmsg⟩
    unfold main
    rw [hmsg]
    exact ⟨rfl, rfl⟩

/-- The constructor succeeds on an index inside the list and stores what it was
given. -/
theorem constructor_eq (calculateHMAC : String → String → String)
    (moves : List String) (key : String) (k : Nat) (hk : k < moves.length) :
    GameManager.constructor calculateHMAC moves key k =
      some { moves := moves, key := key, computerMove := moves[k],
             hmac := calculateHMAC key moves[k] } := by
  unfold GameManager.constructor
  rw [List.getElem?_eq_getElem hk]

/-- In a list of distinct labels `indexOf` finds the position a label was taken
from. -/
theorem indexOf_getElem_nodup (moves : List String) (hnd : moves.Nodup) (k : Nat)
    (hk : k < moves.length) : indexOf moves moves[k] = (k : Int) := by
  unfold indexOf
  rw [if_pos (List.getElem_mem _), List.indexOf_getElem hnd k hk]

/-- C9. For a validated move list (odd length `N ≥ 3`, distinct labels), a
computer index `k` and a user index `u`, both below `N`: the constructor builds
a manager, and `processResult u` reports the user move `moves[u]`, the computer
move `moves[k]`, the outcome `determineWinner u k N` and the key given at
construction; the index found by `indexOf` is the `k` that was chosen. -/
theorem processResult_reports (calculateHMAC : String → String → String)
    (moves : List String) (key : String) (k u : Nat)
    (hodd : moves.length % 2 = 1) (hlen : 3 ≤ moves.length) (hnd : moves.Nodup)
    (hk : k < moves.length) (hu : u < moves.length) :
    ∃ gm, GameManager.constructor calculateHMAC moves key k = some gm ∧
      processResult gm u =
        ["Your move: " ++ moves[u],
         "Computer move: " ++ moves[k],
         "You " ++ (determineWinner u k moves.length).toString ++ "!",
         "HMAC key: " ++ key] ∧
      indexOf gm.moves gm.computerMove = (k : Int) := by
  refine ⟨_, constructor_eq calculateHMAC moves key k hk, ?_, ?_⟩
  · unfold processResult
    simp only []
    rw [indexOf_getElem_nodup moves hnd k hk]
    have hget : arrayGet moves (u : Int) = some moves[u] := by
      unfold arrayGet
      rw [if_pos (by omega), Int.toNat_ofNat, List.getElem?_eq_getElem hu]
    rw [hget]
    rfl
  · exact indexOf_getElem_nodup moves hnd k hk

theorem processResult_reports_witness :
    ∃ gm, GameManager.constructor (fun key m => key ++ m) ["rock", "paper", "scissors"] "k" 2
        = some gm ∧
      processResult gm (1 : Nat) =
        ["Your move: " ++ ["rock", "paper", "scissors"][1],
         "Computer move: " ++ ["rock", "paper", "scissors"][2],
         "You " ++ (determineWinner (1 : Nat) (2 : Nat)
            (["rock", "paper", "scissors"].length : Nat)).toString ++ "!",
         "HMAC key: " ++ "k"] ∧
      indexOf gm.moves gm.computerMove = ((2 : Nat) : Int) :=
  processResult_reports (fun key m => key ++ m) ["rock", "paper", "scissors"] "k" 2 1
    (by decide) (by decide) (by decide) (by decide) (by decide)

/-! ### `parseInt` on decimal numerals -/

/-- The code points of the decimal digits. -/
theorem isDigit_toNat (c : Char) (h : c.isDigit = true) : 48 ≤ c.toNat ∧ c.toNat ≤ 57 := by
  unfold Char.isDigit at h
  simp only [Bool.and_eq_true, decide_eq_true_eq] at h
  unfold Char.toNat
  rcases h with ⟨h1, h2⟩
  rw [ge_iff_le, UInt32.le_def] at h1
  rw [UInt32.le_def] at h2
  simp at h1 h2
  exact ⟨h1, h2⟩

theorem digit_not_whiteSpace (c : Char) (h : c.isDigit = true) : isWhiteSpace c = false := by
  have hb := isDigit_toNat c h
  unfold isWhiteSpace
  simp
  omega

theorem digit_isRadixDigit (c : Char) (h : c.isDigit = true) : isRadixDigit 10 c = true := by
  have hb := isDigit_toNat c h
  unfold isRadixDigit digitValue
  simp only []
  rw [if_pos hb]
  simp
  omega

theorem digit_value (c : Char) (h : c.isDigit = true) :
    (digitValue c).getD 0 = c.toNat - 48 := by
  have hb := isDigit_toNat c h
  unfold digitValue
  simp only []
  rw [if_pos hb]
  rfl

theorem parseSign_digit (c : Char) (rest : List Char) (h : c.isDigit = true) :
    parseSign (c :: rest) = (1, c :: rest) := by
  have hb := isDigit_toNat c h
  unfold parseSign
  split
  · rename_i heq
    injection heq with h1 _
    rw [h1] at hb
    exact absurd hb (by decide)
  · rename_i heq
    injection heq with h1 _
    rw [h1] at hb
    exact absurd hb (by decide)
  · rfl

theorem parseRadix_digits (cs : List Char) (h : ∀ c ∈ cs, c.isDigit = true) :
    parseRadix cs = (10, cs) := by
  unfold parseRadix
  split
  · rename_i rest
    have hx := isDigit_toNat (Char.ofNat 120) (h _ (by simp))
    exact absurd hx (by decide)
  · rename_i rest
    have hx := isDigit_toNat (Char.ofNat 88) (h _ (by simp))
    exact absurd hx (by decide)
  · rfl

theorem digitsValue_digits (cs : List Char) (h : ∀ c ∈ cs, c.isDigit = true) (init : Nat) :
    cs.foldl (fun n c => n * 10 + (digitValue c).getD 0) init =
      cs.foldl (fun n c => n * 10 + (c.toNat - 48)) init := by
  induction cs generalizing init with
  | nil => rfl
  | cons a cs ih =>
    rw [List.foldl_cons, List.foldl_cons, digit_value a (h a (List.mem_cons_self a cs))]
    exact ih (fun c hc => h c (List.mem_cons_of_mem a hc)) _

/-- On a decimal numeral `parseInt` returns the number it denotes. -/
theorem parseInt_decimalNumeral (input : String) (n : Nat)
    (h : decimalNumeral input = some n) : parseInt input = some (n : Int) := by
  unfold decimalNumeral at h
  split_ifs at h with hd
  rcases hd with ⟨hne, hall⟩
  have hdig : ∀ c ∈ input.data, c.isDigit = true := by
    intro c hc
    exact List.all_eq_true.1 hall c hc
  injection h with hval
  obtain ⟨c, rest, hcs⟩ : ∃ c rest, input.data = c :: rest := by
    cases hdata : input.data with
    | nil => exact absurd hdata hne
    | cons c rest => exact ⟨c, rest, rfl⟩
  have hc : c.isDigit = true := hdig c (by rw [hcs]; exact List.mem_cons_self c rest)
  have hdrop : input.data.dropWhile isWhiteSpace = input.data := by
    rw [hcs, List.dropWhile_cons, digit_not_whiteSpace c hc]
    rfl
  have htake : input.data.takeWhile (isRadixDigit 10) = input.data := by
    rw [List.takeWhile_eq_self_iff]
    intro x hx
    exact digit_isRadixDigit x (hdig x hx)
  have hsign : parseSign input.data = (1, input.data) := by
    rw [hcs]; exact parseSign_digit c rest hc
  unfold parseInt
  simp only [hdrop, hsign, parseRadix_digits input.data hdig, htake]
  rw [if_neg hne]
  unfold digitsValue
  rw [digitsValue_digits input.data hdig 0, hval]
  simp

/-! ### The session -/

/-- What `onInput` does with a line that is neither `0` nor `?` and from which
`parseInt` reads no number in `1 .. N`: the error line and the menu again; the
`rl.close()` that follows leaves the new question without input. -/
theorem onInput_invalid (s : Session) (input : String) (h0 : input ≠ "0")
    (hq : input ≠ "?")
    (hbad : ∀ n, parseInt input = some n → n < 1 ∨ (s.gm.moves.length : Int) < n) :
    onInput s input =
      { gm := s.gm,
        transcript := s.transcript ++ ["Invalid move, please try again."] ++
          menuLines s.gm.moves,
        status := Status.InputClosed } := by
  unfold onInput
  rw [if_neg h0, if_neg hq]
  cases hp : parseInt input with
  | none => rfl
  | some n =>
    have hn := hbad n hp
    show (if n - 1 < 0 ∨ n - 1 ≥ (s.gm.moves.length : Int) then _ else _) = _
    rw [if_pos (by omega)]
    rfl

/-- What `onInput` does with a line from which `parseInt` reads the number of a
move. -/
theorem onInput_valid (s : Session) (input : String) (n : Int) (h0 : input ≠ "0")
    (hq : input ≠ "?") (hp : parseInt input = some n) (h1 : 1 ≤ n)
    (hN : n ≤ s.gm.moves.length) :
    onInput s input =
      { gm := s.gm,
        transcript := s.transcript ++ processResult s.gm (n - 1),
        status := Status.RoundComplete } := by
  unfold onInput
  rw [if_neg h0, if_neg hq, hp]
  show (if n - 1 < 0 ∨ n - 1 ≥ (s.gm.moves.length : Int) then _ else _) = _
  rw [if_neg (by omega)]
  rfl

/-- Closing the interface changes neither the manager nor the transcript. -/
theorem rlClose_frame (s : Session) :
    (rlClose s).gm = s.gm ∧ (rlClose s).transcript = s.transcript := by
  unfold rlClose
  split <;> exact ⟨rfl, rfl⟩

/-- No branch of `onInput` touches the manager, and each only appends to the
transcript. -/
theorem onInput_frame (s : Session) (input : String) :
    (onInput s input).gm = s.gm ∧
    ∃ ext, (onInput s input).transcript = s.transcript ++ ext := by
  unfold onInput
  split_ifs with h0 hq
  · exact ⟨(rlClose_frame _).1, _, (rlClose_frame _).2⟩
  · refine ⟨(rlClose_frame _).1, [generateTable s.gm.moves] ++ menuLines s.gm.moves, ?_⟩
    rw [(rlClose_frame _).2]
    simp [showMenu, List.append_assoc]
  · cases hp : (parseInt input).map (fun (n : Int) => n - 1) with
    | none =>
      refine ⟨(rlClose_frame _).1,
        ["Invalid move, please try again."] ++ menuLines s.gm.moves, ?_⟩
      rw [(rlClose_frame _).2]
      simp [showMenu, List.append_assoc]
    | some u =>
      simp only []
      split_ifs
      · refine ⟨(rlClose_frame _).1,
          ["Invalid move, please try again."] ++ menuLines s.gm.moves, ?_⟩
        rw [(rlClose_frame _).2]
        simp [showMenu, List.append_assoc]
      · exact ⟨(rlClose_frame _).1, _, (rlClose_frame _).2⟩

/-- The manager is the same after any sequence of input lines, and the
transcript only grows. -/
theorem feed_frame (s : Session) (inputs : List String) :
    (feed s inputs).gm = s.gm ∧
    ∃ ext, (feed s inputs).transcript = s.transcript ++ ext := by
  induction inputs generalizing s with
  | nil => exact ⟨rfl, [], by simp [feed]⟩
  | cons a inputs ih =>
    have hstep : (step s a).gm = s.gm ∧ ∃ ext, (step s a).transcript = s.transcript ++ ext := by
      unfold step
      split_ifs
      · exact onInput_frame s a
      · exact ⟨rfl, [], by simp⟩
    rcases ih (step s a) with ⟨hg, ext2, ht2⟩
    rcases hstep with ⟨hg1, ext1, ht1⟩
    refine ⟨?_, ext1 ++ ext2, ?_⟩
    · show (feed (step s a) inputs).gm = s.gm
      rw [hg, hg1]
    · show (feed (step s a) inputs).transcript = s.transcript ++ (ext1 ++ ext2)
      rw [ht2, ht1, List.append_assoc]

/-- After an invalid line the menu is on the console again, but the line that
follows is never read: the session is where the invalid line left it. -/
theorem feed_stops_after_invalid :
    feed (start sampleManager) ["9", "1"] = onInput (start sampleManager) "9" ∧
    (feed (start sampleManager) ["9", "1"]).status = Status.InputClosed ∧
    feed (start sampleManager) ["?", "2"] = onInput (start sampleManager) "?" ∧
    (feed (start sampleManager) ["?", "2"]).status = Status.InputClosed :=
  ⟨rfl, rfl, rfl, rfl⟩

/-- C8. With HMAC-SHA256 an arbitrary deterministic function `calculateHMAC`: in
every state reached from the constructor and `start()` through any sequence of
input lines (help requests and invalid inputs among them) the manager is the one
that was constructed, so `key`, `computerMove` and `hmac` are unchanged and
`hmac = calculateHMAC key computerMove`; the transcript begins with the MAC
printed by `start()`; and `processResult` on that manager prints the computer
move and the key from which exactly that MAC is recomputed, in particular when a
move is selected at the first question. -/
theorem commitment_invariant (calculateHMAC : String → String → String)
    (moves : List String) (key : String) (k : Nat) (hk : k < moves.length)
    (inputs : List String) :
    ∃ gm, GameManager.constructor calculateHMAC moves key k = some gm ∧
      gm.key = key ∧ gm.computerMove = moves[k] ∧
      gm.hmac = calculateHMAC key moves[k] ∧
      (feed (start gm) inputs).gm = gm ∧
      (feed (start gm) inputs).gm.hmac =
        calculateHMAC (feed (start gm) inputs).gm.key (feed (start gm) inputs).gm.computerMove ∧
      (∃ rest, (feed (start gm) inputs).transcript =
        ("HMAC: " ++ calculateHMAC (feed (start gm) inputs).gm.key
          (feed (start gm) inputs).gm.computerMove) :: rest) ∧
      (∀ u : Int, ∃ userLine resultLine,
        processResult (feed (start gm) inputs).gm u =
          [userLine, "Computer move: " ++ moves[k], resultLine, "HMAC key: " ++ key]) ∧
      (∀ (line : String) (n : Int), line ≠ "0" → line ≠ "?" → parseInt line = some n →
        1 ≤ n → n ≤ moves.length →
        ∃ userLine resultLine,
          (feed (start gm) [line]).transcript =
            ("HMAC: " ++ calculateHMAC key moves[k]) :: menuLines moves ++
              [userLine, "Computer move: " ++ moves[k], resultLine, "HMAC key: " ++ key]) := by
  have hframe := feed_frame
    (start (⟨moves, key, moves[k], calculateHMAC key moves[k]⟩ : GameManager)) inputs
  refine ⟨_, constructor_eq calculateHMAC moves key k hk, rfl, rfl, rfl, ?_, ?_, ?_, ?_, ?_⟩
  · exact hframe.1
  · rw [hframe.1]
    rfl
  · rcases hframe with ⟨hgm, ext, hext⟩
    refine ⟨menuLines moves ++ ext, ?_⟩
    rw [hext, hgm]
    rfl
  · intro u
    rw [hframe.1]
    exact ⟨_, _, rfl⟩
  · intro line n h0 hq hp h1 hN
    refine ⟨"Your move: " ++ display (arrayGet moves (n - 1)),
      "You " ++ (determineWinner (n - 1) (indexOf moves moves[k]) moves.length).toString ++ "!",
      ?_⟩
    simp only [feed, List.foldl_cons, List.foldl_nil]
    have hstart : (start (⟨moves, key, moves[k], calculateHMAC key moves[k]⟩ : GameManager)).status
        = Status.AwaitingSelection := rfl
    unfold step
    rw [if_pos hstart, onInput_valid _ line n h0 hq hp h1 hN]
    rfl

theorem commitment_invariant_witness :
    ∃ gm, GameManager.constructor (fun key m => key ++ m) ["rock", "paper", "scissors"] "k" 1
        = some gm ∧
      gm.key = "k" ∧ gm.computerMove = ["rock", "paper", "scissors"][1] ∧
      gm.hmac = (fun key m => key ++ m) "k" ["rock", "paper", "scissors"][1] ∧
      (feed (start gm) ["?"]).gm = gm ∧
      (feed (start gm) ["?"]).gm.hmac =
        (fun key m => key ++ m) (feed (start gm) ["?"]).gm.key
          (feed (start gm) ["?"]).gm.computerMove ∧
      (∃ rest, (feed (start gm) ["?"]).transcript =
        ("HMAC: " ++ (fun key m => key ++ m) (feed (start gm) ["?"]).gm.key
          (feed (start gm) ["?"]).gm.computerMove) :: rest) ∧
      (∀ u : Int, ∃ userLine resultLine,
        processResult (feed (start gm) ["?"]).gm u =
          [userLine, "Computer move: " ++ ["rock", "paper", "scissors"][1], resultLine,
           "HMAC key: " ++ "k"]) ∧
      (∀ (line : String) (n : Int), line ≠ "0" → line ≠ "?" → parseInt line = some n →
        1 ≤ n → n ≤ ["rock", "paper", "scissors"].length →
        ∃ userLine resultLine,
          (feed (start gm) [line]).transcript =
            ("HMAC: " ++ (fun key m => key ++ m) "k" ["rock", "paper", "scissors"][1]) ::
              menuLines ["rock", "paper", "scissors"] ++
              [userLine, "Computer move: " ++ ["rock", "paper", "scissors"][1], resultLine,
               "HMAC key: " ++ "k"]) :=
  commitment_invariant (fun key m => key ++ m) ["rock", "paper", "scissors"] "k" 1 (by decide)
    ["?"]

/-- C10, as the code has it. Let `bad` be a line other than `0` and `?` from which
`parseInt` reads no number in `1 .. N`, and `good` a line other than `0` and `?`
from which `parseInt` reads a number `n` with `1 ≤ n ≤ N`.  On `bad`, `onInput`
reports the error and shows the menu again, writes nothing else (no outcome, no
key) and leaves the manager unchanged.  On `good` it runs `processResult (n - 1)`
and the round is complete.  Every decimal numeral `d` with `1 ≤ d ≤ N` is such a
good line, with `n = d`. -/
theorem onInput_selection (s : Session) (bad good : String) (n : Int)
    (hb0 : bad ≠ "0") (hbq : bad ≠ "?")
    (hbad : ∀ m, parseInt bad = some m → m < 1 ∨ (s.gm.moves.length : Int) < m)
    (hg0 : good ≠ "0") (hgq : good ≠ "?") (hgood : parseInt good = some n)
    (h1 : 1 ≤ n) (hN : n ≤ s.gm.moves.length) :
    (onInput s bad).gm = s.gm ∧
    (onInput s bad).transcript =
      s.transcript ++ ["Invalid move, please try again."] ++ menuLines s.gm.moves ∧
    (onInput s bad).status ≠ Status.RoundComplete ∧
    onInput s good =
      { gm := s.gm,
        transcript := s.transcript ++ processResult s.gm (n - 1),
        status := Status.RoundComplete } ∧
    (∀ (line : String) (d : Nat), decimalNumeral line = some d → 1 ≤ d →
      d ≤ s.gm.moves.length →
      line ≠ "0" ∧ line ≠ "?" ∧ parseInt line = some (d : Int) ∧
      onInput s line =
        { gm := s.gm,
          transcript := s.transcript ++ processResult s.gm ((d : Int) - 1),
          status := Status.RoundComplete }) := by
  have hinv := onInput_invalid s bad hb0 hbq hbad
  refine ⟨by rw [hinv], by rw [hinv], by rw [hinv]; simp,
    onInput_valid s good n hg0 hgq hgood h1 hN, ?_⟩
  intro line d hd hd1 hdN
  have hl0 : line ≠ "0" := by
    intro h
    rw [h] at hd
    have hz : decimalNumeral "0" = some 0 := by decide
    rw [hz] at hd
    injection hd with hd
    omega
  have hlq : line ≠ "?" := by
    intro h
    rw [h] at hd
    have hz : decimalNumeral "?" = none := by decide
    rw [hz] at hd
    cases hd
  have hp := parseInt_decimalNumeral line d hd
  exact ⟨hl0, hlq, hp, onInput_valid s line d hl0 hlq hp (by omega) (by omega)⟩

theorem onInput_selection_witness :
    (onInput (start sampleManager) "9").gm = (start sampleManager).gm ∧
    (onInput (start sampleManager) "9").transcript =
      (start sampleManager).transcript ++ ["Invalid move, please try again."] ++
        menuLines (start sampleManager).gm.moves ∧
    (onInput (start sampleManager) "9").status ≠ Status.RoundComplete ∧
    onInput (start sampleManager) "+3" =
      { gm := (start sampleManager).gm,
        transcript := (start sampleManager).transcript ++
          processResult (start sampleManager).gm (3 - 1),
        status := Status.RoundComplete } ∧
    (∀ (line : String) (d : Nat), decimalNumeral line = some d → 1 ≤ d →
      d ≤ (start sampleManager).gm.moves.length →
      line ≠ "0" ∧ line ≠ "?" ∧ parseInt line = some (d : Int) ∧
      onInput (start sampleManager) line =
        { gm := (start sampleManager).gm,
          transcript := (start sampleManager).transcript ++
            processResult (start sampleManager).gm ((d : Int) - 1),
          status := Status.RoundComplete }) :=
  onInput_selection (start sampleManager) "9" "+3" 3 (by decide) (by decide)
    (by
      intro m hm
      have h9 : parseInt "9" = some 9 := by decide
      rw [h9] at hm
      injection hm with hm
      right
      rw [← hm]
      decide)
    (by decide) (by decide) (by decide) (by decide) (by decide)

/-- C10 as stated fails: the line `1abc` is not `0`, not `?` and not a decimal
number, yet with three moves `onInput` does not treat it as invalid: it runs
`processResult 0`, prints the outcome and the key, and completes the round. -/
theorem onInput_trailing_text_selects :
    "1abc" ≠ "0" ∧ "1abc" ≠ "?" ∧ ¬ validSelection "1abc" 3 ∧
    parseInt "1abc" = some 1 ∧
    onInput (start sampleManager) "1abc" =
      { gm := sampleManager,
        transcript := (start sampleManager).transcript ++
          ["Your move: rock", "Computer move: rock", "You Draw!", "HMAC key: k"],
        status := Status.RoundComplete } := by
  refine ⟨by decide, by decide, ?_, by decide, by decide⟩
  rintro ⟨n, hn, _⟩
  have hnone : decimalNumeral "1abc" = none := by decide
  rw [hnone] at hn
  cases hn

end Game
